import Mathlib

/-!
Verification of `libs/jpegrecoverymap/recoverymapmath.cpp`.

Shallow embedding conventions:
* C `float` arithmetic is modelled exactly: pure rational arithmetic uses `ℚ`,
  while the code paths that call `log2` / `exp2` are modelled over `ℝ` with
  `Real.logb 2` and real exponentiation.
* `size_t` and `uint8_t` values are modelled as `ℕ`; a raw byte buffer is a
  total function `ℕ → ℕ` giving the byte at each index (out-of-bounds reads
  are undefined behavior in the C source, so no claim depends on them).
* `static_cast` from a floating value to an unsigned integer type truncates
  toward zero; this is modelled by `qtrunc` (on `ℚ`) and `ftrunc` (on `ℝ`).
-/

namespace RecoveryMapMath

/-- A color, as in `recoverymapmath.h`: three 32-bit floats, interpreted as
either (r, g, b) or (y, u, v) positionally (the C type is a union of the two
views).  The channel type is a parameter so that the same structure serves the
exact-rational model and the real-number model. -/
structure Color (α : Type) where
  r : α
  g : α
  b : α
deriving DecidableEq

/-- The color gamut enumeration `jpegr_color_gamut` from `jpegr.h`. -/
inductive jpegr_color_gamut
  | JPEGR_COLORGAMUT_UNSPECIFIED
  | JPEGR_COLORGAMUT_BT709
  | JPEGR_COLORGAMUT_P3
  | JPEGR_COLORGAMUT_BT2100
deriving DecidableEq

open jpegr_color_gamut

/-- Gamut conversion matrix BT.709 to Display-P3, from the source. -/
def bt709ToP3 (e : Color ℚ) : Color ℚ :=
  ⟨0.82254 * e.r + 0.17755 * e.g + 0.00006 * e.b,
   0.03312 * e.r + 0.96684 * e.g + -0.00001 * e.b,
   0.01706 * e.r + 0.07240 * e.g + 0.91049 * e.b⟩

/-- Gamut conversion matrix BT.709 to BT.2100, from the source. -/
def bt709ToBt2100 (e : Color ℚ) : Color ℚ :=
  ⟨0.62740 * e.r + 0.32930 * e.g + 0.04332 * e.b,
   0.06904 * e.r + 0.91958 * e.g + 0.01138 * e.b,
   0.01636 * e.r + 0.08799 * e.g + 0.89555 * e.b⟩

/-- Gamut conversion matrix Display-P3 to BT.709, from the source. -/
def p3ToBt709 (e : Color ℚ) : Color ℚ :=
  ⟨1.22482 * e.r + -0.22490 * e.g + -0.00007 * e.b,
   -0.04196 * e.r + 1.04199 * e.g + 0.00001 * e.b,
   -0.01961 * e.r + -0.07865 * e.g + 1.09831 * e.b⟩

/-- Gamut conversion matrix Display-P3 to BT.2100, from the source. -/
def p3ToBt2100 (e : Color ℚ) : Color ℚ :=
  ⟨0.75378 * e.r + 0.19862 * e.g + 0.04754 * e.b,
   0.04576 * e.r + 0.94177 * e.g + 0.01250 * e.b,
   -0.00121 * e.r + 0.01757 * e.g + 0.98359 * e.b⟩

/-- Gamut conversion matrix BT.2100 to BT.709, from the source. -/
def bt2100ToBt709 (e : Color ℚ) : Color ℚ :=
  ⟨1.66045 * e.r + -0.58764 * e.g + -0.07286 * e.b,
   -0.12445 * e.r + 1.13282 * e.g + -0.00837 * e.b,
   -0.01811 * e.r + -0.10057 * e.g + 1.11878 * e.b⟩

/-- Gamut conversion matrix BT.2100 to Display-P3, from the source. -/
def bt2100ToP3 (e : Color ℚ) : Color ℚ :=
  ⟨1.34369 * e.r + -0.28223 * e.g + -0.06135 * e.b,
   -0.06533 * e.r + 1.07580 * e.g + -0.01051 * e.b,
   0.00283 * e.r + -0.01957 * e.g + 1.01679 * e.b⟩

/-- Modelled from the spec: `identityConversion` is declared in the header
`recoverymapmath.h`, which is not among the provided sources; the spec states
that an identity transform is used when source and destination gamut match, so
it is modelled as the identity function on colors. -/
def identityConversion (e : Color ℚ) : Color ℚ := e

/-- The gamut-pair lookup `getHdrConversionFn` from the source.  The C
function returns a (possibly null) function pointer `ColorTransformFn`;
nullness is modelled with `Option`. -/
def getHdrConversionFn (sdr_gamut hdr_gamut : jpegr_color_gamut) :
    Option (Color ℚ → Color ℚ) :=
  match sdr_gamut with
  | JPEGR_COLORGAMUT_BT709 =>
    match hdr_gamut with
    | JPEGR_COLORGAMUT_BT709 => some identityConversion
    | JPEGR_COLORGAMUT_P3 => some p3ToBt709
    | JPEGR_COLORGAMUT_BT2100 => some bt2100ToBt709
    | JPEGR_COLORGAMUT_UNSPECIFIED => none
  | JPEGR_COLORGAMUT_P3 =>
    match hdr_gamut with
    | JPEGR_COLORGAMUT_BT709 => some bt709ToP3
    | JPEGR_COLORGAMUT_P3 => some identityConversion
    | JPEGR_COLORGAMUT_BT2100 => some bt2100ToP3
    | JPEGR_COLORGAMUT_UNSPECIFIED => none
  | JPEGR_COLORGAMUT_BT2100 =>
    match hdr_gamut with
    | JPEGR_COLORGAMUT_BT709 => some bt709ToBt2100
    | JPEGR_COLORGAMUT_P3 => some p3ToBt2100
    | JPEGR_COLORGAMUT_BT2100 => some identityConversion
    | JPEGR_COLORGAMUT_UNSPECIFIED => none
  | JPEGR_COLORGAMUT_UNSPECIFIED => none

/-- An uncompressed image or map buffer (`jr_uncompressed_struct` from
`jpegr.h`): width, height, and the raw byte storage viewed as a total map
from byte index to byte value. -/
structure jr_uncompressed where
  width : ℕ
  height : ℕ
  data : ℕ → ℕ

/-- The static helper `clamp` from the source (on `size_t` values). -/
def clamp (val low high : ℕ) : ℕ :=
  if val < low then low else if high < val then high else val

/-- The static helper `mapUintToFloat` from the source:
`(map_uint - 127.5) / 127.5`, modelled exactly over `ℚ`. -/
def mapUintToFloat (map_uint : ℕ) : ℚ :=
  ((map_uint : ℚ) - 127.5) / 127.5

/-- `sampleMap` from the source.  The two intermediate `x_lower`/`x_upper`
variables of the C code (computed before clamping, then reassigned by
clamping) are inlined: each clamped bound is written directly as `clamp`
applied to the floor-derived index.  `static_cast<size_t>(floor(x_map))`
becomes `(Int.floor x_map).toNat` (the argument is nonnegative in range). -/
def sampleMap (map : jr_uncompressed) (map_scale_factor x y : ℕ) : ℚ :=
  let x_map : ℚ := (x : ℚ) / (map_scale_factor : ℚ)
  let y_map : ℚ := (y : ℚ) / (map_scale_factor : ℚ)
  let x_lower : ℕ := clamp (Int.toNat ⌊x_map⌋) 0 (map.width - 1)
  let x_upper : ℕ := clamp (Int.toNat ⌊x_map⌋ + 1) 0 (map.width - 1)
  let y_lower : ℕ := clamp (Int.toNat ⌊y_map⌋) 0 (map.height - 1)
  let y_upper : ℕ := clamp (Int.toNat ⌊y_map⌋ + 1) 0 (map.height - 1)
  let x_influence : ℚ := x_map - (x_lower : ℚ)
  let y_influence : ℚ := y_map - (y_lower : ℚ)
  let e1 : ℚ := mapUintToFloat (map.data (x_lower + y_lower * map.width))
  let e2 : ℚ := mapUintToFloat (map.data (x_lower + y_upper * map.width))
  let e3 : ℚ := mapUintToFloat (map.data (x_upper + y_lower * map.width))
  let e4 : ℚ := mapUintToFloat (map.data (x_upper + y_upper * map.width))
  e1 * (x_influence + y_influence) / 2
    + e2 * (x_influence + 1 - y_influence) / 2
    + e3 * (1 - x_influence + y_influence) / 2
    + e4 * (1 - x_influence + 1 - y_influence) / 2

/-- `getYuv420Pixel` from the source: reads the luma byte and the two
subsampled chroma bytes and converts to a float color with the 128 chroma
bias removed. -/
def getYuv420Pixel (image : jr_uncompressed) (x y : ℕ) : Color ℚ :=
  let pixel_count : ℕ := image.width * image.height
  let pixel_y_idx : ℕ := x + y * image.width
  let pixel_uv_idx : ℕ := x / 2 + (y / 2) * (image.width / 2)
  let y_uint : ℕ := image.data pixel_y_idx
  let u_uint : ℕ := image.data (pixel_count + pixel_uv_idx)
  let v_uint : ℕ := image.data (pixel_count * 5 / 4 + pixel_uv_idx)
  ⟨(y_uint : ℚ) / 255,
   ((u_uint : ℚ) - 128) / 255,
   ((v_uint : ℚ) - 128) / 255⟩

/-- Truncation toward zero of an exact rational, modelling the C++
`static_cast` from a floating value to an integer type. -/
def qtrunc (q : ℚ) : ℤ :=
  if 0 ≤ q then ⌊q⌋ else -⌊-q⌋

/-- `colorToRgba1010102` from the source: packs a gamma-domain color into a
10-10-10-2 word using truncating casts, 10-bit masks, shifts, and a fixed
alpha of 3 in the top two bits. -/
def colorToRgba1010102 (e_gamma : Color ℚ) : ℕ :=
  (0x3ff &&& (qtrunc (e_gamma.r * 1023)).toNat)
    ||| ((0x3ff &&& (qtrunc (e_gamma.g * 1023)).toNat) <<< 10)
    ||| ((0x3ff &&& (qtrunc (e_gamma.b * 1023)).toNat) <<< 20)
    ||| (0x3 <<< 30)

/-- Truncation toward zero of a real, modelling the C++ `static_cast` from
`float` to `uint8_t` on the encode path (in-range values assumed; conversion
of an out-of-range value is undefined behavior in C++). -/
noncomputable def ftrunc (x : ℝ) : ℤ :=
  if 0 ≤ x then ⌊x⌋ else -⌊-x⌋

/-- `encodeRecovery` from the source: ratio of HDR to SDR luminance with a
fallback of 1.0 when the SDR luminance is not positive, clamped to
`[-hdr_ratio, hdr_ratio]`, then `log2(gain)/log2(hdr_ratio)*127.5 + 127.5`
cast to `uint8_t`.  The sequential reassignments of the C local `gain` are
written as three successive bindings. -/
noncomputable def encodeRecovery (y_sdr y_hdr hdr_ratio : ℝ) : ℤ :=
  let gain0 : ℝ := if 0 < y_sdr then y_hdr / y_sdr else 1
  let gain1 : ℝ := if gain0 < -hdr_ratio then -hdr_ratio else gain0
  let gain : ℝ := if hdr_ratio < gain1 then hdr_ratio else gain1
  ftrunc (Real.logb 2 gain / Real.logb 2 hdr_ratio * 127.5 + 127.5)

/-- The scalar overload of `applyRecovery` from the source:
`exp2(log2(e) + recovery * log2(hdr_ratio))`. -/
noncomputable def applyRecoveryScalar (e recovery hdr_ratio : ℝ) : ℝ :=
  (2 : ℝ) ^ (Real.logb 2 e + recovery * Real.logb 2 hdr_ratio)

/-- The color overload of `applyRecovery` from the source: the scalar
version applied per channel. -/
noncomputable def applyRecovery (e : Color ℝ) (recovery hdr_ratio : ℝ) : Color ℝ :=
  ⟨applyRecoveryScalar e.r recovery hdr_ratio,
   applyRecoveryScalar e.g recovery hdr_ratio,
   applyRecoveryScalar e.b recovery hdr_ratio⟩

/-- A concrete 2x2 gain map whose top-left cell stores byte 255 and whose
other cells store byte 0; used to evaluate `sampleMap` at a grid-aligned
coordinate. -/
def mapC1 : jr_uncompressed :=
  ⟨2, 2, fun p => if p = 0 then 255 else 0⟩

/-- A concrete 2x2 gain map all of whose cells store byte 10; used to
evaluate `sampleMap` on a constant map. -/
def mapC2 : jr_uncompressed :=
  ⟨2, 2, fun _ => 10⟩

/-- A concrete gamma-domain color with channels 1/2, 0 and 1; used to
evaluate the 10-10-10-2 packing. -/
def colorC9 : Color ℚ := ⟨1/2, 0, 1⟩

/-- A concrete 2x2 YUV420 image buffer: luma bytes 1,2,3,4 row-major, then
one U byte 130 and one V byte 120; used to evaluate `getYuv420Pixel`. -/
def imageC10 : jr_uncompressed :=
  ⟨2, 2, fun p => if p = 0 then 1 else if p = 1 then 2 else if p = 2 then 3
    else if p = 3 then 4 else if p = 4 then 130 else 120⟩

end RecoveryMapMath

namespace RecoveryMapMath

open jpegr_color_gamut

/-! ## Helper lemmas -/

/-- Clamping a value to an upper bound with lower bound 0 is `min`. -/
theorem clamp_zero_eq_min (v h : ℕ) : clamp v 0 h = min v h := by
  simp only [clamp]
  split
  · omega
  · split <;> omega

/-- Disjoint 10-bit fields combined with masks, shifts and bitwise or equal
the corresponding place-value sum. -/
theorem pack_fields_eq_add (a b c : ℕ) (ha : a ≤ 1023) (hb : b ≤ 1023) (hc : c ≤ 1023) :
    (0x3ff &&& a) ||| ((0x3ff &&& b) <<< 10) ||| ((0x3ff &&& c) <<< 20) ||| (0x3 <<< 30)
      = a + b * 2 ^ 10 + c * 2 ^ 20 + 3 * 2 ^ 30 := by
  have hmask : ∀ n : ℕ, n ≤ 1023 → 0x3ff &&& n = n := by
    intro n hn
    rw [Nat.land_comm]
    rw [show (0x3ff : ℕ) = 2 ^ 10 - 1 by norm_num, Nat.and_pow_two_sub_one_eq_mod]
    exact Nat.mod_eq_of_lt (by omega)
  rw [hmask a ha, hmask b hb, hmask c hc, Nat.shiftLeft_eq, Nat.shiftLeft_eq, Nat.shiftLeft_eq]
  have h1 : a ||| b * 2 ^ 10 = a + b * 2 ^ 10 := by
    have key := Nat.mul_add_lt_is_or (b := a) (i := 10) (by omega) b
    rw [Nat.lor_comm, mul_comm b (2 ^ 10), ← key]
    omega
  have h2 : (a + b * 2 ^ 10) ||| c * 2 ^ 20 = a + b * 2 ^ 10 + c * 2 ^ 20 := by
    have key := Nat.mul_add_lt_is_or (b := a + b * 2 ^ 10) (i := 20) (by omega) c
    rw [Nat.lor_comm, mul_comm c (2 ^ 20), ← key]
    omega
  have h3 : (a + b * 2 ^ 10 + c * 2 ^ 20) ||| 3 * 2 ^ 30
      = a + b * 2 ^ 10 + c * 2 ^ 20 + 3 * 2 ^ 30 := by
    have key := Nat.mul_add_lt_is_or (b := a + b * 2 ^ 10 + c * 2 ^ 20) (i := 30) (by omega) 3
    rw [Nat.lor_comm, mul_comm 3 (2 ^ 30), ← key]
    omega
  rw [h1, h2, h3]

/-! ## Claim C1 -/

/-- C1 counterexample: on the concrete 2x2 map whose top-left cell stores
byte 255 (decoded gain 1) and whose other cells store byte 0, sampling at
the grid-aligned coordinate (0, 0) with scale factor 1 yields -2, not the
decoded value 1 of that cell, so grid-aligned sampling is not the stored
value of the addressed cell. -/
theorem sampleMap_grid_aligned_counterexample :
    sampleMap mapC1 1 0 0 = -2 ∧
      mapUintToFloat (mapC1.data (0 + 0 * mapC1.width)) = 1 ∧ ((-2 : ℚ) ≠ 1) := by
  refine ⟨?_, ?_, by norm_num⟩
  · norm_num [sampleMap, mapC1, clamp, mapUintToFloat]
  · norm_num [mapC1, mapUintToFloat]

/-- C1 (amended): at a grid-aligned in-range coordinate
(map_scale_factor * i, map_scale_factor * j), both influences are 0 and
`sampleMap` returns half the decoded value of the cell one row down plus
half the decoded value of the cell one column right plus the full decoded
value of the diagonal neighbor, the group edge-clamped; the addressed cell
(i, j) itself contributes nothing. -/
theorem sampleMap_grid_aligned (map : jr_uncompressed) (s i j : ℕ)
    (hs : 0 < s) (hi : i < map.width) (hj : j < map.height) :
    sampleMap map s (s * i) (s * j) =
      (mapUintToFloat (map.data (i + min (j + 1) (map.height - 1) * map.width))
        + mapUintToFloat (map.data (min (i + 1) (map.width - 1) + j * map.width))) / 2
      + mapUintToFloat
          (map.data (min (i + 1) (map.width - 1) + min (j + 1) (map.height - 1) * map.width)) := by
  have hsQ : (s : ℚ) ≠ 0 := Nat.cast_ne_zero.mpr hs.ne'
  have hx : ((s * i : ℕ) : ℚ) / (s : ℚ) = (i : ℚ) := by
    push_cast
    field_simp
  have hy : ((s * j : ℕ) : ℚ) / (s : ℚ) = (j : ℚ) := by
    push_cast
    field_simp
  have hci : clamp i 0 (map.width - 1) = i := by
    rw [clamp_zero_eq_min]
    omega
  have hcj : clamp j 0 (map.height - 1) = j := by
    rw [clamp_zero_eq_min]
    omega
  have hci2 : clamp (i + 1) 0 (map.width - 1) = min (i + 1) (map.width - 1) :=
    clamp_zero_eq_min _ _
  have hcj2 : clamp (j + 1) 0 (map.height - 1) = min (j + 1) (map.height - 1) :=
    clamp_zero_eq_min _ _
  simp only [sampleMap, hx, hy, Int.floor_natCast, Int.toNat_natCast, hci, hcj, hci2, hcj2]
  ring

/-- C1 witness: the amended statement instantiated on the concrete map at
cell (0, 0) with scale factor 1. -/
theorem sampleMap_grid_aligned_witness :
    sampleMap mapC1 1 (1 * 0) (1 * 0) =
      (mapUintToFloat (mapC1.data (0 + min (0 + 1) (mapC1.height - 1) * mapC1.width))
        + mapUintToFloat (mapC1.data (min (0 + 1) (mapC1.width - 1) + 0 * mapC1.width))) / 2
      + mapUintToFloat
          (mapC1.data (min (0 + 1) (mapC1.width - 1)
            + min (0 + 1) (mapC1.height - 1) * mapC1.width)) :=
  sampleMap_grid_aligned mapC1 1 0 0 (by norm_num) (by norm_num [mapC1]) (by norm_num [mapC1])

/-! ## Claim C2 -/

/-- C2: on a gain map all of whose bytes equal b, `sampleMap` returns
exactly twice the decoded gain 2 * ((b - 127.5) / 127.5) at every
coordinate, because the four corner weights of the sampling formula sum
to 2 rather than 1. -/
theorem sampleMap_const_map (map : jr_uncompressed) (b map_scale_factor x y : ℕ)
    (hdata : ∀ p, map.data p = b) (hs : 0 < map_scale_factor)
    (hx : x < map_scale_factor * map.width) (hy : y < map_scale_factor * map.height) :
    sampleMap map map_scale_factor x y = 2 * (((b : ℚ) - 127.5) / 127.5) := by
  simp only [sampleMap, mapUintToFloat, hdata]
  ring

/-- C2 witness: the constant-map statement instantiated on the concrete
all-10 map at coordinate (1, 3) with scale factor 2. -/
theorem sampleMap_const_map_witness :
    sampleMap mapC2 2 1 3 = 2 * ((((10 : ℕ) : ℚ) - 127.5) / 127.5) :=
  sampleMap_const_map mapC2 10 2 1 3 (fun _ => rfl) (by norm_num)
    (by norm_num [mapC2]) (by norm_num [mapC2])

/-! ## Claim C3 -/

/-- C3 counterexample: at y_sdr = 1, y_hdr = 1, hdr_ratio = 4 the code
returns byte 127, while the value claimed by rounding to nearest,
round(log2(1/1)/log2(4) * 127.5 + 127.5) = round(127.5), is 128; the
integer narrowing truncates rather than rounds. -/
theorem encodeRecovery_round_counterexample :
    encodeRecovery 1 1 4 = 127 ∧
      round (Real.logb 2 ((1 : ℝ) / 1) / Real.logb 2 4 * 127.5 + 127.5) = 128 := by
  constructor
  · simp only [encodeRecovery]
    rw [if_pos (by norm_num : (0 : ℝ) < 1), (by norm_num : ((1 : ℝ) / 1) = 1),
      if_neg (by norm_num : ¬((1 : ℝ) < -4)), if_neg (by norm_num : ¬((4 : ℝ) < 1)),
      Real.logb_one, zero_div, zero_mul, zero_add]
    rw [ftrunc, if_pos (by norm_num)]
    rw [Int.floor_eq_iff]
    constructor <;> norm_num
  · rw [(by norm_num : ((1 : ℝ) / 1) = 1), Real.logb_one, zero_div, zero_mul, zero_add]
    rw [round_eq, Int.floor_eq_iff]
    constructor <;> norm_num

/-- C3 (amended): encodeRecovery computes ratio = y_hdr / y_sdr with SDR
luminance 0 treated as ratio 1 (giving byte 127), clamps the ratio to
[-hdr_ratio, hdr_ratio], and returns the truncation toward zero (here the
floor, the pre-narrowing value being nonnegative) of
log2(ratio)/log2(hdr_ratio) * 127.5 + 127.5 - not its rounding to
nearest; stated for ratios in [1/hdr_ratio, hdr_ratio], where the clamps
are no-ops and the value before narrowing lies in [0, 255]. -/
theorem encodeRecovery_truncates (y_sdr y_hdr R : ℝ) (hR : 1 < R) :
    (0 < y_sdr → 1 / R ≤ y_hdr / y_sdr → y_hdr / y_sdr ≤ R →
      encodeRecovery y_sdr y_hdr R =
        ⌊Real.logb 2 (y_hdr / y_sdr) / Real.logb 2 R * 127.5 + 127.5⌋) ∧
    encodeRecovery 0 y_hdr R = 127 := by
  have hRpos : (0 : ℝ) < R := lt_trans one_pos hR
  constructor
  · intro hs hlo hhi
    have hgain : (0 : ℝ) < y_hdr / y_sdr := lt_of_lt_of_le (by positivity) hlo
    have hlogR : 0 < Real.logb 2 R := Real.logb_pos (by norm_num) hR
    have hmono : Real.logb 2 (1 / R) ≤ Real.logb 2 (y_hdr / y_sdr) :=
      Real.logb_le_logb_of_le (by norm_num) (by positivity) hlo
    have hinv : Real.logb 2 (1 / R) = -Real.logb 2 R := by
      rw [one_div, Real.logb_inv]
    have hnorm : -1 ≤ Real.logb 2 (y_hdr / y_sdr) / Real.logb 2 R := by
      rw [le_div_iff₀ hlogR]
      linarith
    simp only [encodeRecovery]
    rw [if_pos hs, if_neg (show ¬(y_hdr / y_sdr < -R) by linarith),
      if_neg (not_lt.mpr hhi)]
    rw [ftrunc, if_pos (by nlinarith)]
  · simp only [encodeRecovery]
    rw [if_neg (lt_irrefl 0), if_neg (show ¬((1 : ℝ) < -R) by linarith),
      if_neg (not_lt.mpr hR.le), Real.logb_one, zero_div, zero_mul, zero_add]
    rw [ftrunc, if_pos (by norm_num)]
    rw [Int.floor_eq_iff]
    constructor <;> norm_num

/-- C3 witness: the amended statement instantiated at y_sdr = 1, y_hdr = 2,
hdr_ratio = 4, plus the zero-SDR fallback at y_sdr = 0. -/
theorem encodeRecovery_truncates_witness :
    encodeRecovery 1 2 4 =
        ⌊Real.logb 2 ((2 : ℝ) / 1) / Real.logb 2 4 * 127.5 + 127.5⌋ ∧
      encodeRecovery 0 2 4 = 127 :=
  ⟨(encodeRecovery_truncates 1 2 4 (by norm_num)).1 (by norm_num) (by norm_num) (by norm_num),
   (encodeRecovery_truncates 0 2 4 (by norm_num)).2⟩

/-! ## Claim C4 -/

/-- C4 counterexample: packing the color (1, 0, 1) does not give the
claimed word 0xC00003FF (that word has zero bits 20-29 and so would encode
B = 0, contradicting the byte layout also given by the claim). -/
theorem colorToRgba1010102_example_counterexample :
    colorToRgba1010102 ⟨1, 0, 1⟩ ≠ 0xC00003FF := by
  have h1 : qtrunc ((1 : ℚ) * 1023) = 1023 := by
    rw [show ((1 : ℚ) * 1023) = ((1023 : ℤ) : ℚ) by norm_num]
    simp [qtrunc, Int.floor_intCast]
  have h0 : qtrunc ((0 : ℚ) * 1023) = 0 := by
    rw [show ((0 : ℚ) * 1023) = ((0 : ℤ) : ℚ) by norm_num]
    simp [qtrunc]
  simp only [colorToRgba1010102, h1, h0]
  decide

/-- C4 (amended): packing the color (1, 0, 1) returns the 32-bit word
0xFFF003FF, which encodes R = 1023 in bits 0-9, G = 0 in bits 10-19,
B = 1023 in bits 20-29 and alpha = 3 in bits 30-31. -/
theorem colorToRgba1010102_example :
    colorToRgba1010102 ⟨1, 0, 1⟩ = 0xFFF003FF := by
  have h1 : qtrunc ((1 : ℚ) * 1023) = 1023 := by
    rw [show ((1 : ℚ) * 1023) = ((1023 : ℤ) : ℚ) by norm_num]
    simp [qtrunc, Int.floor_intCast]
  have h0 : qtrunc ((0 : ℚ) * 1023) = 0 := by
    rw [show ((0 : ℚ) * 1023) = ((0 : ℤ) : ℚ) by norm_num]
    simp [qtrunc]
  simp only [colorToRgba1010102, h1, h0]
  decide

/-! ## Claim C5 -/

/-- C5: for a fixed hdr_ratio R > 1, (a) equal SDR and HDR luminance
encodes to byte 127 or 128 (the code gives exactly 127, the truncated
midpoint), and (b) applying a recovery of 0 returns every
positive-channel color unchanged. -/
theorem encode_apply_consistency (R : ℝ) (hR : 1 < R) :
    (∀ y : ℝ, 0 < y →
      (encodeRecovery y y R = 127 ∨ encodeRecovery y y R = 128)) ∧
    (∀ e : Color ℝ, 0 < e.r → 0 < e.g → 0 < e.b → applyRecovery e 0 R = e) := by
  constructor
  · intro y hy
    left
    have h1 : (if 0 < y then y / y else 1) = 1 := by
      rw [if_pos hy, div_self hy.ne']
    simp only [encodeRecovery, h1]
    rw [if_neg (show ¬((1 : ℝ) < -R) by linarith), if_neg (not_lt.mpr hR.le)]
    rw [Real.logb_one, zero_div, zero_mul, zero_add]
    rw [ftrunc, if_pos (by norm_num)]
    rw [Int.floor_eq_iff]
    constructor <;> norm_num
  · intro e her heg heb
    obtain ⟨er, eg, eb⟩ := e
    simp only [applyRecovery, applyRecoveryScalar, zero_mul, add_zero, Color.mk.injEq]
    refine ⟨?_, ?_, ?_⟩ <;>
      exact Real.rpow_logb (by norm_num) (by norm_num) (by assumption)

/-- C5 witness: the consistency statement instantiated at R = 2, y = 1 and
the color (1, 1, 1). -/
theorem encode_apply_consistency_witness :
    (encodeRecovery 1 1 2 = 127 ∨ encodeRecovery 1 1 2 = 128) ∧
      applyRecovery ⟨1, 1, 1⟩ 0 2 = ⟨1, 1, 1⟩ :=
  ⟨(encode_apply_consistency 2 (by norm_num)).1 1 one_pos,
   (encode_apply_consistency 2 (by norm_num)).2 ⟨1, 1, 1⟩ one_pos one_pos one_pos⟩

/-! ## Claim C6 -/

/-- C6: encodeRecovery at y_sdr = 0.5, y_hdr = 1.0, hdr_ratio = 4.0 gives
ratio 2, normalized gain log2(2)/log2(4) = 1/2, pre-narrowing value
0.5 * 127.5 + 127.5 = 191.25, and returns the byte 191. -/
theorem encodeRecovery_example : encodeRecovery 0.5 1 4 = 191 := by
  have h4 : Real.logb 2 4 = 2 := by
    rw [show (4 : ℝ) = 2 ^ (2 : ℕ) by norm_num, Real.logb_pow,
      Real.logb_self_eq_one (by norm_num)]
    norm_num
  have hg : ((1 : ℝ) / 0.5) = 2 := by norm_num
  simp only [encodeRecovery]
  rw [if_pos (by norm_num : (0 : ℝ) < 0.5), hg,
    if_neg (by norm_num : ¬((2 : ℝ) < -4)), if_neg (by norm_num : ¬((4 : ℝ) < 2)),
    Real.logb_self_eq_one (by norm_num), h4]
  rw [ftrunc, if_pos (by norm_num)]
  rw [Int.floor_eq_iff]
  constructor <;> norm_num

/-! ## Claim C7 -/

/-- C7: for each gamut G among BT.709, Display-P3 and BT.2100, the gamut
lookup at the pair (G, G) returns the identity transform, and applying it
to any color returns that color exactly. -/
theorem getHdrConversionFn_same_gamut (G : jpegr_color_gamut)
    (h : G = JPEGR_COLORGAMUT_BT709 ∨ G = JPEGR_COLORGAMUT_P3 ∨ G = JPEGR_COLORGAMUT_BT2100) :
    getHdrConversionFn G G = some identityConversion ∧
      ∀ c : Color ℚ, identityConversion c = c := by
  rcases h with h | h | h <;> subst h <;> exact ⟨rfl, fun c => rfl⟩

/-- C7 witness: the identity-lookup statement instantiated at BT.709. -/
theorem getHdrConversionFn_same_gamut_witness :
    getHdrConversionFn JPEGR_COLORGAMUT_BT709 JPEGR_COLORGAMUT_BT709 = some identityConversion ∧
      ∀ c : Color ℚ, identityConversion c = c :=
  getHdrConversionFn_same_gamut JPEGR_COLORGAMUT_BT709 (Or.inl rfl)

/-! ## Claim C8 -/

/-- C8: the gamut lookup returns the absence value (no transform) exactly
when at least one of the two gamut arguments is Unspecified; in
particular such pairs never receive an identity transform. -/
theorem getHdrConversionFn_none_iff (sdr_gamut hdr_gamut : jpegr_color_gamut) :
    getHdrConversionFn sdr_gamut hdr_gamut = none ↔
      sdr_gamut = JPEGR_COLORGAMUT_UNSPECIFIED ∨ hdr_gamut = JPEGR_COLORGAMUT_UNSPECIFIED := by
  cases sdr_gamut <;> cases hdr_gamut <;> simp [getHdrConversionFn]

/-! ## Claim C9 -/

/-- C9: for a color with all channels in [0, 1], the packed word scales
each channel by 1023, truncates toward zero (the floor of the nonnegative
product, with no rounding), masks to 10 bits (a no-op on these values),
and places R in bits 0-9, G in bits 10-19, B in bits 20-29, with bits
30-31 holding the maximum alpha value 3. -/
theorem colorToRgba1010102_fields (c : Color ℚ)
    (hr0 : 0 ≤ c.r) (hr1 : c.r ≤ 1) (hg0 : 0 ≤ c.g) (hg1 : c.g ≤ 1)
    (hb0 : 0 ≤ c.b) (hb1 : c.b ≤ 1) :
    colorToRgba1010102 c =
      (⌊c.r * 1023⌋).toNat + (⌊c.g * 1023⌋).toNat * 2 ^ 10
        + (⌊c.b * 1023⌋).toNat * 2 ^ 20 + 3 * 2 ^ 30 := by
  have key : ∀ q : ℚ, 0 ≤ q → q ≤ 1 →
      qtrunc (q * 1023) = ⌊q * 1023⌋ ∧ (⌊q * 1023⌋).toNat ≤ 1023 := by
    intro q h0 h1
    have hq0 : (0 : ℚ) ≤ q * 1023 := by positivity
    refine ⟨if_pos hq0, ?_⟩
    have hle : q * 1023 ≤ 1023 := by nlinarith
    have h1023 : ⌊(1023 : ℚ)⌋ = (1023 : ℤ) := by
      rw [show (1023 : ℚ) = ((1023 : ℤ) : ℚ) by norm_num]
      exact Int.floor_intCast 1023
    have hf : ⌊q * 1023⌋ ≤ ⌊(1023 : ℚ)⌋ := Int.floor_le_floor hle
    rw [h1023] at hf
    omega
  simp only [colorToRgba1010102, (key c.r hr0 hr1).1, (key c.g hg0 hg1).1,
    (key c.b hb0 hb1).1]
  exact pack_fields_eq_add _ _ _ (key c.r hr0 hr1).2 (key c.g hg0 hg1).2 (key c.b hb0 hb1).2

/-- C9 witness: the field-layout statement instantiated at the color
(1/2, 0, 1). -/
theorem colorToRgba1010102_fields_witness :
    colorToRgba1010102 colorC9 =
      (⌊colorC9.r * 1023⌋).toNat + (⌊colorC9.g * 1023⌋).toNat * 2 ^ 10
        + (⌊colorC9.b * 1023⌋).toNat * 2 ^ 20 + 3 * 2 ^ 30 :=
  colorToRgba1010102_fields colorC9 (by norm_num [colorC9]) (by norm_num [colorC9])
    (by norm_num [colorC9]) (by norm_num [colorC9]) (by norm_num [colorC9])
    (by norm_num [colorC9])

/-! ## Claim C10 -/

/-- C10: for in-range coordinates, the extracted YUV420 color is
(Y/255, (U - 128)/255, (V - 128)/255), with Y read at row-major index
x + y * width, U at byte offset width * height plus chroma index
x/2 + (y/2) * (width/2), and V at byte offset width * height * 5 / 4 plus
the same chroma index. -/
theorem getYuv420Pixel_formula (image : jr_uncompressed) (x y : ℕ)
    (hx : x < image.width) (hy : y < image.height) :
    getYuv420Pixel image x y =
      ⟨(image.data (x + y * image.width) : ℚ) / 255,
       ((image.data (image.width * image.height +
          (x / 2 + (y / 2) * (image.width / 2))) : ℚ) - 128) / 255,
       ((image.data (image.width * image.height * 5 / 4 +
          (x / 2 + (y / 2) * (image.width / 2))) : ℚ) - 128) / 255⟩ := by
  simp [getYuv420Pixel]

/-- C10 witness: the extraction formula instantiated on the concrete 2x2
image at pixel (1, 1). -/
theorem getYuv420Pixel_formula_witness :
    getYuv420Pixel imageC10 1 1 =
      ⟨(imageC10.data (1 + 1 * imageC10.width) : ℚ) / 255,
       ((imageC10.data (imageC10.width * imageC10.height +
          (1 / 2 + (1 / 2) * (imageC10.width / 2))) : ℚ) - 128) / 255,
       ((imageC10.data (imageC10.width * imageC10.height * 5 / 4 +
          (1 / 2 + (1 / 2) * (imageC10.width / 2))) : ℚ) - 128) / 255⟩ :=
  getYuv420Pixel_formula imageC10 1 1 (by norm_num [imageC10]) (by norm_num [imageC10])

end RecoveryMapMath
